import Mathlib

/-!
Shallow embedding of `src/index.ts` of the whenty repository.

The source exports two functions:

```ts
export function sync(conditionFn: () => boolean, callback: Function, intervalMs: number = 50) {
    const interval = setInterval(() => {
        if (conditionFn()) {
            clearInterval(interval);
            callback();
        }
    }, intervalMs);
}

export function async(conditionFn: () => boolean, callback: Function, intervalMs: number = 50): Promise<boolean> {
    return new Promise((resolve) => {
        const interval = setInterval(() => {
            if (conditionFn()) {
                clearInterval(interval);
                callback();
                resolve(true);
            }
        }, intervalMs);
    });
}
```

Embedding choices:
* `conditionFn` and `callback` are caller closures that may be stateful and
  may throw; we model them by the trace of their call results:
  `cond k : Except ε Bool` is what the k-th call of `conditionFn` does
  (k counted from 1), and `cb j : Except ε Unit` what the j-th call of
  `callback` does.  `ε` is the type of thrown JavaScript values.
* A single invocation's runtime state is the number of condition
  evaluations so far, whether `clearInterval(interval)` has run, the number
  of callback invocations, and (for `async`) the settlement state of the
  returned promise.
* `tick` is one firing of the repeating timer: it executes the tick body of
  the source verbatim (when the interval is cleared no tick fires).  Its
  second component records a value thrown out of the tick body to the
  surrounding execution context (`none` when the tick ran to completion).
* `run n` is the state after `n` scheduled timer firings; `run 0` is the
  state at the moment the entry point returns to its caller (nothing has
  been evaluated yet, `setInterval` merely scheduled the timer).
* Tick `n` fires at time `tickTime intervalMs n = n * intervalMs` after the
  call.
-/

namespace Whenty

/-- Settlement state of a JavaScript `Promise<boolean>`: pending, fulfilled
with a boolean, or rejected with a reason of type `ε`. -/
inductive PromiseState (ε : Type) where
  | pending : PromiseState ε
  | fulfilled : Bool → PromiseState ε
  | rejected : ε → PromiseState ε
deriving DecidableEq, Repr

/-- Per-invocation runtime state of `sync`: how many times `conditionFn`
has been called, whether `clearInterval(interval)` has run, and how many
times `callback` has been invoked. -/
structure SyncState where
  condEvals : Nat
  cleared : Bool
  callbackCalls : Nat
deriving DecidableEq, Repr

/-- Per-invocation runtime state of `async`: the `sync` fields plus the
settlement state of the promise returned to the caller. -/
structure AsyncState (ε : Type) where
  condEvals : Nat
  cleared : Bool
  callbackCalls : Nat
  promise : PromiseState ε
deriving DecidableEq, Repr

variable {ε : Type}

/-- State at the moment `sync` returns: `setInterval` has been scheduled
but no tick has fired, nothing has been evaluated or invoked. -/
def sync.init : SyncState := ⟨0, false, 0⟩

/-- One firing of the repeating timer of `sync`, i.e. the tick body
`if (conditionFn()) { clearInterval(interval); callback(); }`.
If the interval has been cleared the timer no longer fires and the state is
unchanged.  The second component is the value thrown out of the tick body,
if any: the source has no try/catch, so a throw from `conditionFn` or
`callback` escapes to the surrounding execution context. -/
def sync.tick (cond : Nat → Except ε Bool) (cb : Nat → Except ε Unit)
    (s : SyncState) : SyncState × Option ε :=
  if s.cleared then (s, none)
  else
    match cond (s.condEvals + 1) with
    | .error e => (⟨s.condEvals + 1, s.cleared, s.callbackCalls⟩, some e)
    | .ok false => (⟨s.condEvals + 1, s.cleared, s.callbackCalls⟩, none)
    | .ok true =>
      match cb (s.callbackCalls + 1) with
      | .error e => (⟨s.condEvals + 1, true, s.callbackCalls + 1⟩, some e)
      | .ok _ => (⟨s.condEvals + 1, true, s.callbackCalls + 1⟩, none)

/-- State transition of one `sync` timer firing (the state part of
`sync.tick`). -/
def sync.step (cond : Nat → Except ε Bool) (cb : Nat → Except ε Unit)
    (s : SyncState) : SyncState :=
  (sync.tick cond cb s).1

/-- State of a `sync` invocation after `n` scheduled timer firings. -/
def sync.run (cond : Nat → Except ε Bool) (cb : Nat → Except ε Unit) :
    Nat → SyncState
  | 0 => sync.init
  | n + 1 => sync.step cond cb (sync.run cond cb n)

/-- State at the moment `async` returns its promise: `setInterval` has been
scheduled, the promise is pending, nothing has been evaluated or invoked. -/
def async.init : AsyncState ε := ⟨0, false, 0, .pending⟩

/-- One firing of the repeating timer of `async`, i.e. the tick body
`if (conditionFn()) { clearInterval(interval); callback(); resolve(true); }`.
Note the source order: the interval is cleared before `callback()` runs, and
`resolve(true)` runs only after `callback()` returned normally; the promise
executor only ever receives `resolve`, never calls `reject`. -/
def async.tick (cond : Nat → Except ε Bool) (cb : Nat → Except ε Unit)
    (s : AsyncState ε) : AsyncState ε × Option ε :=
  if s.cleared then (s, none)
  else
    match cond (s.condEvals + 1) with
    | .error e => (⟨s.condEvals + 1, s.cleared, s.callbackCalls, s.promise⟩, some e)
    | .ok false => (⟨s.condEvals + 1, s.cleared, s.callbackCalls, s.promise⟩, none)
    | .ok true =>
      match cb (s.callbackCalls + 1) with
      | .error e => (⟨s.condEvals + 1, true, s.callbackCalls + 1, s.promise⟩, some e)
      | .ok _ => (⟨s.condEvals + 1, true, s.callbackCalls + 1, .fulfilled true⟩, none)

/-- State transition of one `async` timer firing (the state part of
`async.tick`). -/
def async.step (cond : Nat → Except ε Bool) (cb : Nat → Except ε Unit)
    (s : AsyncState ε) : AsyncState ε :=
  (async.tick cond cb s).1

/-- State of an `async` invocation after `n` scheduled timer firings. -/
def async.run (cond : Nat → Except ε Bool) (cb : Nat → Except ε Unit) :
    Nat → AsyncState ε
  | 0 => async.init
  | n + 1 => async.step cond cb (async.run cond cb n)

/-- Trace of a pure (never-throwing) condition function whose k-th call
returns `c k`. -/
def okCond (c : Nat → Bool) : Nat → Except Empty Bool := fun k => .ok (c k)

/-- Trace of a pure (never-throwing) callback. -/
def okCb : Nat → Except Empty Unit := fun _ => .ok ()

/-- The condition function first returns `true` on its N-th call
(calls counted from 1). -/
def firstTrueAt (c : Nat → Bool) (N : Nat) : Prop :=
  1 ≤ N ∧ c N = true ∧ ∀ k < N, 1 ≤ k → c k = false

instance (c : Nat → Bool) (N : Nat) : Decidable (firstTrueAt c N) := by
  unfold firstTrueAt
  infer_instance

/-- The condition function never returns `true`. -/
def neverTrue (c : Nat → Bool) : Prop := ∀ k, 1 ≤ k → c k = false

/-- Wall-clock time (ms after the call) at which the n-th firing of a
repeating timer with period `intervalMs` occurs. -/
def tickTime (intervalMs n : Nat) : Nat := n * intervalMs

/-- The part of an `async` invocation state that `sync` also has. -/
def proj (s : AsyncState ε) : SyncState := ⟨s.condEvals, s.cleared, s.callbackCalls⟩

lemma syncStep_cleared (cond : Nat → Except ε Bool) (cb : Nat → Except ε Unit)
    (s : SyncState) (h : s.cleared = true) : sync.step cond cb s = s := by
  simp [sync.step, sync.tick, h]

lemma asyncStep_cleared (cond : Nat → Except ε Bool) (cb : Nat → Except ε Unit)
    (s : AsyncState ε) (h : s.cleared = true) : async.step cond cb s = s := by
  simp [async.step, async.tick, h]

lemma proj_step (cond : Nat → Except ε Bool) (cb : Nat → Except ε Unit)
    (s : AsyncState ε) : proj (async.step cond cb s) = sync.step cond cb (proj s) := by
  cases hcl : s.cleared with
  | true => simp [async.step, async.tick, sync.step, sync.tick, proj, hcl]
  | false =>
    cases hcond : cond (s.condEvals + 1) with
    | error e => simp [async.step, async.tick, sync.step, sync.tick, proj, hcl, hcond]
    | ok b =>
      cases b with
      | false => simp [async.step, async.tick, sync.step, sync.tick, proj, hcl, hcond]
      | true =>
        cases hcb : cb (s.callbackCalls + 1) with
        | error e =>
          simp [async.step, async.tick, sync.step, sync.tick, proj, hcl, hcond, hcb]
        | ok u =>
          simp [async.step, async.tick, sync.step, sync.tick, proj, hcl, hcond, hcb]

lemma proj_run (cond : Nat → Except ε Bool) (cb : Nat → Except ε Unit) (n : Nat) :
    proj (async.run cond cb n) = sync.run cond cb n := by
  induction n with
  | zero => rfl
  | succ m ih =>
    show proj (async.step cond cb (async.run cond cb m))
        = sync.step cond cb (sync.run cond cb m)
    rw [proj_step, ih]

lemma asyncRun_before (c : Nat → Bool) (N : Nat) (h : firstTrueAt c N) :
    ∀ n < N, async.run (okCond c) okCb n = ⟨n, false, 0, .pending⟩ := by
  intro n
  induction n with
  | zero => intro _; rfl
  | succ m ih =>
    intro hlt
    have hrun := ih (Nat.lt_of_succ_lt hlt)
    have hcf : c (m + 1) = false := h.2.2 (m + 1) hlt (Nat.succ_le_succ (Nat.zero_le m))
    show async.step (okCond c) okCb (async.run (okCond c) okCb m) = _
    rw [hrun]
    simp [async.step, async.tick, okCond, hcf]

lemma asyncRun_from (c : Nat → Bool) (N : Nat) (h : firstTrueAt c N) :
    ∀ n, N ≤ n → async.run (okCond c) okCb n = ⟨N, true, 1, .fulfilled true⟩ := by
  have hN : async.run (okCond c) okCb N = ⟨N, true, 1, .fulfilled true⟩ := by
    obtain ⟨m, hm⟩ : ∃ m, N = m + 1 := ⟨N - 1, (Nat.succ_pred_eq_of_pos h.1).symm⟩
    subst hm
    have hrun := asyncRun_before c (m + 1) h m (Nat.lt_succ_self m)
    show async.step (okCond c) okCb (async.run (okCond c) okCb m) = _
    rw [hrun]
    simp [async.step, async.tick, okCond, okCb, h.2.1]
  intro n hn
  induction n, hn using Nat.le_induction with
  | base => exact hN
  | succ n hn ih =>
    show async.step (okCond c) okCb (async.run (okCond c) okCb n) = _
    rw [ih]
    exact asyncStep_cleared _ _ _ rfl

lemma asyncRun_never (c : Nat → Bool) (h : neverTrue c) :
    ∀ n, async.run (okCond c) okCb n = ⟨n, false, 0, .pending⟩ := by
  intro n
  induction n with
  | zero => rfl
  | succ m ih =>
    have hcf : c (m + 1) = false := h (m + 1) (Nat.succ_le_succ (Nat.zero_le m))
    show async.step (okCond c) okCb (async.run (okCond c) okCb m) = _
    rw [ih]
    simp [async.step, async.tick, okCond, hcf]

lemma syncRun_before (c : Nat → Bool) (N : Nat) (h : firstTrueAt c N) :
    ∀ n < N, sync.run (okCond c) okCb n = ⟨n, false, 0⟩ := by
  intro n hn
  rw [← proj_run, asyncRun_before c N h n hn]
  rfl

lemma syncRun_from (c : Nat → Bool) (N : Nat) (h : firstTrueAt c N) :
    ∀ n, N ≤ n → sync.run (okCond c) okCb n = ⟨N, true, 1⟩ := by
  intro n hn
  rw [← proj_run, asyncRun_from c N h n hn]
  rfl

lemma syncRun_never (c : Nat → Bool) (h : neverTrue c) :
    ∀ n, sync.run (okCond c) okCb n = ⟨n, false, 0⟩ := by
  intro n
  rw [← proj_run, asyncRun_never c h n]
  rfl

/-- Inductive invariant of an `async` invocation: the callback has been
invoked exactly once if the interval was cleared and never otherwise, the
promise is only ever pending or fulfilled with `true`, and it is fulfilled
only after the interval was cleared. -/
def AsyncInv (s : AsyncState ε) : Prop :=
  s.callbackCalls = (if s.cleared then 1 else 0) ∧
  (s.promise = .pending ∨ s.promise = .fulfilled true) ∧
  (s.promise = .fulfilled true → s.cleared = true)

lemma asyncStep_inv (cond : Nat → Except ε Bool) (cb : Nat → Except ε Unit)
    (s : AsyncState ε) (h : AsyncInv s) : AsyncInv (async.step cond cb s) := by
  obtain ⟨h1, h2, h3⟩ := h
  cases hcl : s.cleared with
  | true =>
    rw [asyncStep_cleared cond cb s hcl]
    exact ⟨h1, h2, h3⟩
  | false =>
    have hcb0 : s.callbackCalls = 0 := by simpa [hcl] using h1
    have hp : s.promise = .pending := by
      rcases h2 with h | h
      · exact h
      · exact absurd (h3 h) (by simp [hcl])
    cases hcond : cond (s.condEvals + 1) with
    | error e => simp [AsyncInv, async.step, async.tick, hcl, hcond, hcb0, hp]
    | ok b =>
      cases b with
      | false => simp [AsyncInv, async.step, async.tick, hcl, hcond, hcb0, hp]
      | true =>
        cases hcb : cb (s.callbackCalls + 1) with
        | error e =>
          rw [hcb0] at hcb
          simp [AsyncInv, async.step, async.tick, hcl, hcond, hcb, hcb0, hp]
        | ok u =>
          rw [hcb0] at hcb
          simp [AsyncInv, async.step, async.tick, hcl, hcond, hcb, hcb0]

lemma asyncRun_inv (cond : Nat → Except ε Bool) (cb : Nat → Except ε Unit) (n : Nat) :
    AsyncInv (async.run cond cb n) := by
  induction n with
  | zero => simp [AsyncInv, async.run, async.init]
  | succ m ih => exact asyncStep_inv cond cb _ ih

lemma asyncRun_frozen (cond : Nat → Except ε Bool) (cb : Nat → Except ε Unit)
    (n : Nat) (h : (async.run cond cb n).cleared = true) :
    ∀ m, n ≤ m → async.run cond cb m = async.run cond cb n := by
  intro m hm
  induction m, hm using Nat.le_induction with
  | base => rfl
  | succ m hm ih =>
    show async.step cond cb (async.run cond cb m) = _
    rw [ih, asyncStep_cleared cond cb _ h]

lemma syncRun_frozen (cond : Nat → Except ε Bool) (cb : Nat → Except ε Unit)
    (n : Nat) (h : (sync.run cond cb n).cleared = true) :
    ∀ m, n ≤ m → sync.run cond cb m = sync.run cond cb n := by
  intro m hm
  have ha : (async.run cond cb n).cleared = true := by
    rw [← proj_run cond cb n] at h
    exact h
  rw [← proj_run, asyncRun_frozen cond cb n ha m hm, proj_run]

lemma syncStep_condEvals_le (cond : Nat → Except ε Bool) (cb : Nat → Except ε Unit)
    (s : SyncState) : (sync.step cond cb s).condEvals ≤ s.condEvals + 1 := by
  cases hcl : s.cleared with
  | true => simp [sync.step, sync.tick, hcl, Nat.le_succ]
  | false =>
    cases hcond : cond (s.condEvals + 1) with
    | error e => simp [sync.step, sync.tick, hcl, hcond]
    | ok b =>
      cases b with
      | false => simp [sync.step, sync.tick, hcl, hcond]
      | true =>
        cases hcb : cb (s.callbackCalls + 1) with
        | error e => simp [sync.step, sync.tick, hcl, hcond, hcb]
        | ok u => simp [sync.step, sync.tick, hcl, hcond, hcb]

lemma syncRun_condEvals_le (cond : Nat → Except ε Bool) (cb : Nat → Except ε Unit)
    (n : Nat) : (sync.run cond cb n).condEvals ≤ n := by
  induction n with
  | zero => exact Nat.le_refl 0
  | succ m ih =>
    calc (sync.run cond cb (m + 1)).condEvals
        ≤ (sync.run cond cb m).condEvals + 1 := syncStep_condEvals_le cond cb _
      _ ≤ m + 1 := Nat.succ_le_succ ih

lemma asyncRun_condEvals_le (cond : Nat → Except ε Bool) (cb : Nat → Except ε Unit)
    (n : Nat) : (async.run cond cb n).condEvals ≤ n := by
  have h := syncRun_condEvals_le cond cb n
  rw [← proj_run cond cb n] at h
  exact h

lemma tickTime_ge (intervalMs n : Nat) (hn : 1 ≤ n) : intervalMs ≤ tickTime intervalMs n := by
  unfold tickTime
  calc intervalMs = 1 * intervalMs := (Nat.one_mul intervalMs).symm
    _ ≤ n * intervalMs := Nat.mul_le_mul_right intervalMs hn

/-- Claim C1, refuted by the code: `async` is claimed to take a `timeoutMs`
parameter defaulting to 5000 and to reject its promise with an error naming
the timeout when the condition stays false past the deadline.  The source's
`async` takes no timeout parameter and schedules no deadline timer: with an
always-false condition and the default 50 ms interval, after 101 ticks
(5050 ms, past the claimed default 5000 ms deadline) the promise is still
pending, the interval is still active and the callback has never run. -/
theorem claimC1_no_timeout_rejection :
    async.run (okCond fun _ => false) okCb 101 = ⟨101, false, 0, PromiseState.pending⟩ :=
  asyncRun_never (fun _ => false) (fun _ _ => rfl) 101

/-- Claim C2, refuted by the code: `sync` is claimed to take a fourth
`timeoutMs` parameter (default 0) that stops polling at the deadline.  The
source's `sync` takes only three parameters and has no timeout mechanism:
with an always-false condition, interval 50 ms and a claimed timeout of
100 ms (deadline at tick 2), tick 3 at 150 ms still fires and evaluates the
condition, and in general after any n ticks the interval is still active
and the condition has been evaluated on all n ticks — polling never
stops. -/
theorem claimC2_polling_never_stops :
    sync.run (okCond fun _ => false) okCb 3 = ⟨3, false, 0⟩ ∧
    (∀ n, sync.run (okCond fun _ => false) okCb n = ⟨n, false, 0⟩) := by
  have h := syncRun_never (fun _ => false) (fun _ _ => rfl)
  exact ⟨h 3, h⟩

/-- Claim C3: for every condition that first returns true on its N-th
polling tick, both `sync` and `async` invoke the callback exactly once and
never before the N-th tick: after n ticks the callback count is 0 when
n < N and exactly 1 when n ≥ N. -/
theorem claimC3_callback_exactly_once (c : Nat → Bool) (N : Nat) (h : firstTrueAt c N)
    (n : Nat) :
    (sync.run (okCond c) okCb n).callbackCalls = (if n < N then 0 else 1) ∧
    (async.run (okCond c) okCb n).callbackCalls = (if n < N then 0 else 1) := by
  by_cases hn : n < N
  · rw [syncRun_before c N h n hn, asyncRun_before c N h n hn]
    simp [hn]
  · have hn2 : N ≤ n := Nat.le_of_not_lt hn
    rw [syncRun_from c N h n hn2, asyncRun_from c N h n hn2]
    simp [hn]

theorem claimC3_witness :
    (sync.run (okCond fun k => decide (2 ≤ k)) okCb 1).callbackCalls = 0 ∧
    (sync.run (okCond fun k => decide (2 ≤ k)) okCb 3).callbackCalls = 1 ∧
    (async.run (okCond fun k => decide (2 ≤ k)) okCb 3).callbackCalls = 1 := by
  have h1 := claimC3_callback_exactly_once (fun k => decide (2 ≤ k)) 2 (by decide) 1
  have h3 := claimC3_callback_exactly_once (fun k => decide (2 ≤ k)) 2 (by decide) 3
  refine ⟨?_, ?_, ?_⟩
  · simpa using h1.1
  · simpa using h3.1
  · simpa using h3.2

/-- Claim C4: once the condition returns true on its first true tick N, the
repeating timer is cancelled in that very tick and the condition is never
evaluated again on any later tick, in both `sync` and `async`: from tick N
on the interval is cleared and the evaluation count stays at N forever. -/
theorem claimC4_stop_after_first_true (c : Nat → Bool) (N : Nat) (h : firstTrueAt c N) :
    (sync.run (okCond c) okCb N).cleared = true ∧
    (async.run (okCond c) okCb N).cleared = true ∧
    (∀ n, N ≤ n → (sync.run (okCond c) okCb n).condEvals = N) ∧
    (∀ n, N ≤ n → (async.run (okCond c) okCb n).condEvals = N) := by
  refine ⟨?_, ?_, ?_, ?_⟩
  · rw [syncRun_from c N h N (Nat.le_refl N)]
  · rw [asyncRun_from c N h N (Nat.le_refl N)]
  · intro n hn
    rw [syncRun_from c N h n hn]
  · intro n hn
    rw [asyncRun_from c N h n hn]

theorem claimC4_witness :
    (sync.run (okCond fun k => decide (2 ≤ k)) okCb 2).cleared = true ∧
    (sync.run (okCond fun k => decide (2 ≤ k)) okCb 5).condEvals = 2 ∧
    (async.run (okCond fun k => decide (2 ≤ k)) okCb 5).condEvals = 2 := by
  have h := claimC4_stop_after_first_true (fun k => decide (2 ≤ k)) 2 (by decide)
  exact ⟨h.1, h.2.2.1 5 (by decide), h.2.2.2 5 (by decide)⟩

/-- Claim C5: per invocation at most one of callback invocation and timeout
signalling ever occurs, and once the determining event happens the poll
handle stays cancelled and the condition is never evaluated again: for
arbitrary (possibly throwing) condition and callback traces, the callback
runs at most once in `sync` and in `async`, no timeout is ever signalled
(the `async` promise is never rejected; `sync` has no failure channel in
the source at all), and once the callback has run the interval is cleared
and the entire state — in particular the evaluation count — is frozen at
every later tick. -/
theorem claimC5_at_most_one_outcome (cond : Nat → Except ε Bool) (cb : Nat → Except ε Unit)
    (n m : Nat) (hnm : n ≤ m) :
    (sync.run cond cb n).callbackCalls ≤ 1 ∧
    (async.run cond cb n).callbackCalls ≤ 1 ∧
    (∀ e, (async.run cond cb n).promise ≠ .rejected e) ∧
    ((sync.run cond cb n).callbackCalls = 1 →
      (sync.run cond cb n).cleared = true ∧ sync.run cond cb m = sync.run cond cb n) ∧
    ((async.run cond cb n).callbackCalls = 1 →
      (async.run cond cb n).cleared = true ∧ async.run cond cb m = async.run cond cb n) := by
  obtain ⟨h1, h2, h3⟩ := asyncRun_inv cond cb n
  have hsyncCb : (sync.run cond cb n).callbackCalls = (async.run cond cb n).callbackCalls := by
    rw [← proj_run cond cb n]
    rfl
  have hcbA : (async.run cond cb n).callbackCalls ≤ 1 := by
    rw [h1]
    cases (async.run cond cb n).cleared <;> simp
  have key : (async.run cond cb n).callbackCalls = 1 → (async.run cond cb n).cleared = true := by
    intro hcA
    cases hx : (async.run cond cb n).cleared with
    | true => rfl
    | false =>
      rw [h1, hx] at hcA
      simp at hcA
  refine ⟨?_, hcbA, ?_, ?_, ?_⟩
  · rw [hsyncCb]
    exact hcbA
  · intro e heq
    rcases h2 with hx | hx <;> rw [heq] at hx <;> exact PromiseState.noConfusion hx
  · intro hc
    have hcA : (async.run cond cb n).callbackCalls = 1 := by rw [← hsyncCb]; exact hc
    have hclS : (sync.run cond cb n).cleared = true := by
      rw [← proj_run cond cb n]
      exact key hcA
    exact ⟨hclS, syncRun_frozen cond cb n hclS m hnm⟩
  · intro hcA
    exact ⟨key hcA, asyncRun_frozen cond cb n (key hcA) m hnm⟩

theorem claimC5_witness :
    (sync.run (okCond fun k => decide (1 ≤ k)) okCb 1).callbackCalls = 1 ∧
    (sync.run (okCond fun k => decide (1 ≤ k)) okCb 1).cleared = true ∧
    sync.run (okCond fun k => decide (1 ≤ k)) okCb 4
      = sync.run (okCond fun k => decide (1 ≤ k)) okCb 1 := by
  have h := claimC5_at_most_one_outcome (okCond fun k => decide (1 ≤ k)) okCb 1 4 (by decide)
  have hc : (sync.run (okCond fun k => decide (1 ≤ k)) okCb 1).callbackCalls = 1 := by decide
  exact ⟨hc, (h.2.2.2.1 hc).1, (h.2.2.2.1 hc).2⟩

/-- Claim C6: for every `async` invocation whose condition first returns
true on tick N, the callback is invoked exactly once and the promise is
then fulfilled with `true` (from tick N on the callback count is 1 and the
promise fulfilled with true; before tick N the callback count is 0 and the
promise pending); moreover fulfillment only ever happens after the callback
invocation: whenever the promise is fulfilled, the callback has already
been invoked. -/
theorem claimC6_callback_then_fulfilled (c : Nat → Bool) (N : Nat) (h : firstTrueAt c N) :
    (∀ n, N ≤ n → (async.run (okCond c) okCb n).callbackCalls = 1 ∧
      (async.run (okCond c) okCb n).promise = .fulfilled true) ∧
    (∀ n, n < N → (async.run (okCond c) okCb n).callbackCalls = 0 ∧
      (async.run (okCond c) okCb n).promise = .pending) ∧
    (∀ (τ : Type) (cond : Nat → Except τ Bool) (cb : Nat → Except τ Unit) (n : Nat),
      (async.run cond cb n).promise = .fulfilled true →
        1 ≤ (async.run cond cb n).callbackCalls) := by
  refine ⟨?_, ?_, ?_⟩
  · intro n hn
    rw [asyncRun_from c N h n hn]
    exact ⟨rfl, rfl⟩
  · intro n hn
    rw [asyncRun_before c N h n hn]
    exact ⟨rfl, rfl⟩
  · intro τ cond cb n hf
    obtain ⟨h1, h2, h3⟩ := asyncRun_inv cond cb n
    rw [h1, h3 hf]
    simp

theorem claimC6_witness :
    (async.run (okCond fun k => decide (3 ≤ k)) okCb 4).callbackCalls = 1 ∧
    (async.run (okCond fun k => decide (3 ≤ k)) okCb 4).promise = PromiseState.fulfilled true ∧
    (async.run (okCond fun k => decide (3 ≤ k)) okCb 2).promise = PromiseState.pending := by
  have h := claimC6_callback_then_fulfilled (fun k => decide (3 ≤ k)) 3 (by decide)
  exact ⟨(h.1 4 (by decide)).1, (h.1 4 (by decide)).2, (h.2.1 2 (by decide)).2⟩

/-- Claim C7: the condition is never evaluated synchronously at call time —
both entry points return immediately after scheduling, with nothing
evaluated and no callback run (even when the condition is already true at
call time, since the state at return does not depend on the condition at
all); the number of evaluations after n ticks never exceeds n; and any
state in which at least one evaluation has happened lies at or after the
first tick, i.e. at wall-clock time at least `intervalMs` after the
call. -/
theorem claimC7_no_synchronous_evaluation (cond : Nat → Except ε Bool)
    (cb : Nat → Except ε Unit) (intervalMs : Nat) :
    sync.run cond cb 0 = sync.init ∧
    async.run cond cb 0 = async.init ∧
    sync.init.condEvals = 0 ∧
    sync.init.callbackCalls = 0 ∧
    (async.init : AsyncState ε).condEvals = 0 ∧
    (async.init : AsyncState ε).promise = .pending ∧
    (∀ n, (sync.run cond cb n).condEvals ≤ n) ∧
    (∀ n, (async.run cond cb n).condEvals ≤ n) ∧
    (∀ n, (sync.run cond cb n).condEvals ≠ 0 → intervalMs ≤ tickTime intervalMs n) ∧
    (∀ n, (async.run cond cb n).condEvals ≠ 0 → intervalMs ≤ tickTime intervalMs n) := by
  refine ⟨rfl, rfl, rfl, rfl, rfl, rfl,
    syncRun_condEvals_le cond cb, asyncRun_condEvals_le cond cb, ?_, ?_⟩
  · intro n hne
    exact tickTime_ge intervalMs n
      (Nat.le_trans (Nat.pos_of_ne_zero hne) (syncRun_condEvals_le cond cb n))
  · intro n hne
    exact tickTime_ge intervalMs n
      (Nat.le_trans (Nat.pos_of_ne_zero hne) (asyncRun_condEvals_le cond cb n))

theorem claimC7_witness :
    sync.run (okCond fun _ => true) okCb 0 = sync.init ∧
    50 ≤ tickTime 50 2 := by
  have h := claimC7_no_synchronous_evaluation (okCond fun _ => true) okCb 50
  exact ⟨h.1, h.2.2.2.2.2.2.2.2.1 2 (by decide)⟩

/-- Claim C8: neither `sync` nor `async` catches exceptions thrown by the
condition or by the callback: when a condition evaluation throws `e`, the
tick rethrows `e` to the surrounding execution context — the callback does
not run, the interval is not cleared and the `async` promise is untouched;
when the condition is true and the callback throws `e`, the tick rethrows
`e` after clearing the interval and the promise is left unsettled — in no
case is the throw converted into a returned or signalled failure. -/
theorem claimC8_throws_propagate (cond : Nat → Except ε Bool) (cb : Nat → Except ε Unit)
    (s : SyncState) (t : AsyncState ε) (e : ε) :
    (s.cleared = false → cond (s.condEvals + 1) = .error e →
      sync.tick cond cb s = (⟨s.condEvals + 1, false, s.callbackCalls⟩, some e)) ∧
    (t.cleared = false → cond (t.condEvals + 1) = .error e →
      async.tick cond cb t = (⟨t.condEvals + 1, false, t.callbackCalls, t.promise⟩, some e)) ∧
    (s.cleared = false → cond (s.condEvals + 1) = .ok true →
      cb (s.callbackCalls + 1) = .error e →
      sync.tick cond cb s = (⟨s.condEvals + 1, true, s.callbackCalls + 1⟩, some e)) ∧
    (t.cleared = false → cond (t.condEvals + 1) = .ok true →
      cb (t.callbackCalls + 1) = .error e →
      async.tick cond cb t = (⟨t.condEvals + 1, true, t.callbackCalls + 1, t.promise⟩, some e)) := by
  refine ⟨?_, ?_, ?_, ?_⟩
  · intro hcl hcond
    simp [sync.tick, hcl, hcond]
  · intro hcl hcond
    simp [async.tick, hcl, hcond]
  · intro hcl hcond hcb
    simp [sync.tick, hcl, hcond, hcb]
  · intro hcl hcond hcb
    simp [async.tick, hcl, hcond, hcb]

theorem claimC8_witness :
    sync.tick (fun _ => Except.error "boom") (fun _ => Except.ok ()) sync.init
      = (⟨1, false, 0⟩, some "boom") ∧
    async.tick (fun _ => Except.ok true) (fun _ => Except.error "boom") async.init
      = (⟨1, true, 1, PromiseState.pending⟩, some "boom") := by
  have h := claimC8_throws_propagate (fun _ => Except.error "boom") (fun _ => Except.ok ())
    sync.init async.init "boom"
  have h2 := claimC8_throws_propagate (fun _ => Except.ok true) (fun _ => Except.error "boom")
    sync.init async.init "boom"
  exact ⟨h.1 rfl rfl, h2.2.2.2 rfl rfl rfl⟩

/-- Claim C9: the promise returned by `async` never rejects — for every
(even throwing) condition and callback trace its only possible settlement
states are pending and fulfilled with `true` — and when the condition never
returns true the promise is still pending after every number of ticks while
the repeating timer keeps firing: the interval is never cleared and the
condition has been evaluated on every one of the n ticks. -/
theorem claimC9_promise_never_rejects (cond : Nat → Except ε Bool) (cb : Nat → Except ε Unit)
    (n : Nat) (c : Nat → Bool) (h : neverTrue c) :
    (∀ e, (async.run cond cb n).promise ≠ .rejected e) ∧
    ((async.run cond cb n).promise = .pending ∨
      (async.run cond cb n).promise = .fulfilled true) ∧
    async.run (okCond c) okCb n = ⟨n, false, 0, .pending⟩ := by
  obtain ⟨h1, h2, h3⟩ := asyncRun_inv cond cb n
  refine ⟨?_, h2, asyncRun_never c h n⟩
  intro e heq
  rcases h2 with hx | hx <;> rw [heq] at hx <;> exact PromiseState.noConfusion hx

theorem claimC9_witness :
    (async.run (fun _ => (Except.ok false : Except String Bool)) (fun _ => Except.ok ()) 3).promise
      ≠ PromiseState.rejected "x" ∧
    async.run (okCond fun _ => false) okCb 3 = ⟨3, false, 0, PromiseState.pending⟩ := by
  have h := claimC9_promise_never_rejects (fun _ => (Except.ok false : Except String Bool))
    (fun _ => Except.ok ()) 3 (fun _ => false) (fun _ _ => rfl)
  exact ⟨h.1 "x", h.2.2⟩

/-- Claim C10: `sync` and `async` are behaviourally equivalent with respect
to condition evaluation and callback invocation — for the same condition
and callback traces, after any number of ticks the `async` state projected
to the `sync` fields (evaluation count, cleared flag, callback count)
equals the `sync` state, so both evaluate the condition on exactly the same
ticks and invoke the callback on exactly the same tick; the only additional
observable of `async` is its promise, which is only ever pending or
fulfilled with `true`. -/
theorem claimC10_sync_async_equiv (cond : Nat → Except ε Bool) (cb : Nat → Except ε Unit)
    (n : Nat) :
    proj (async.run cond cb n) = sync.run cond cb n ∧
    ((async.run cond cb n).promise = .pending ∨
      (async.run cond cb n).promise = .fulfilled true) :=
  ⟨proj_run cond cb n, (asyncRun_inv cond cb n).2.1⟩

end Whenty
